import Mathlib

/-!
# Verification of the `wasm_bindgen_test` runtime scheduler

A shallow embedding of `crates/test/src/rt/mod.rs`: the `Context`/`State`/
`ExecuteTests`/`TestFuture` ensemble that registers tests (applying
filter/skip/ignore policy), drives them under a bounded-concurrency
cooperative scheduler, classifies results under should-panic policy, and
captures console output.

Modelling conventions:
* JS values (`JsValue`) are opaque host values; we model them as either the
  distinguished `null` value or a string payload, and the host `String(val)`
  conversion as `stringifyJs`.
* The `Formatter` trait object is an external collaborator reached only
  through `writeln`/`log_test`; we model it as an append-only trace of
  `LogEvent`s stored in the scheduler state, and its `stringify_error`
  capability as `stringifyJs`.
* A test body (a Rust `Future`) is external user code; we model it as a
  deterministic suspendable computation: it reports "pending" a fixed number
  of times and then completes with a fixed `Result<(), JsValue>`.
* The timer is an external "elapsed seconds" capability; we model it as an
  optional pre-rendered elapsed-time string.
-/

namespace WbgTest

/-- Opaque JS value: the distinguished `JsValue::NULL`, or a value carrying a
string payload (all we ever observe of a `JsValue` is its stringification). -/
inductive JsValue where
  | null : JsValue
  | str (s : String) : JsValue
deriving DecidableEq, Repr

/-- Model of the host `String(val)` conversion (the `js_name = String` extern
binding), also used for the formatter's `stringify_error` capability. -/
def stringifyJs : JsValue → String
  | .null => "null"
  | .str s => s

/-- Boolean substring check, modelling Rust `str::contains(&str)`:
`needle` occurs contiguously inside `haystack`. -/
def listContains (haystack needle : List Char) : Bool :=
  match haystack with
  | [] => needle.isEmpty
  | _ :: rest => needle.isPrefixOf haystack || listContains rest needle

/-- Here `strContains h n` models `h.contains(n)` on Rust strings. -/
def strContains (haystack needle : String) : Bool :=
  listContains haystack.toList needle.toList

/-- Here `splitOnceList l pat` models Rust `str::split_once`: splits `l` at the
first occurrence of `pat`, returning the parts before and after it. -/
def splitOnceList (l pat : List Char) : Option (List Char × List Char) :=
  match l with
  | [] => if pat.isEmpty then some ([], []) else none
  | c :: rest =>
    if pat.isPrefixOf (c :: rest) then some ([], (c :: rest).drop pat.length)
    else
      match splitOnceList rest pat with
      | some (pre, post) => some (c :: pre, post)
      | none => none

/-- Here `splitOnce s pat` models `s.split_once(pat)` on Rust strings. -/
def splitOnce (s pat : String) : Option (String × String) :=
  match splitOnceList s.toList pat.toList with
  | none => none
  | some (pre, post) => some (⟨pre⟩, ⟨post⟩)

/-- Maximum number of tests to execute concurrently (`const CONCURRENCY: usize = 1`). -/
def CONCURRENCY : Nat := 1

/-- Captured output of each test (`struct Output`): five console streams, the
panic-message stream, and the "a panic was expected" flag. -/
structure Output where
  debug : String := ""
  log : String := ""
  info : String := ""
  warn : String := ""
  error : String := ""
  panic : String := ""
  should_panic : Bool := false
deriving DecidableEq, Repr

instance : DecidableEq (Except JsValue Unit) := fun a b =>
  match a, b with
  | .ok (), .ok () => isTrue rfl
  | .error e, .error e' =>
    if h : e = e' then isTrue (by rw [h]) else isFalse (by simp [h])
  | .ok (), .error _ => isFalse (by simp)
  | .error _, .ok () => isFalse (by simp)

/-- A test body is external user code (a Rust `Future`); modelled as a
deterministic suspendable computation: it polls `Poll::Pending` exactly
`pendings` times and then completes with `result`. -/
structure TestBody where
  pendings : Nat
  result : Except JsValue Unit
deriving DecidableEq, Repr

/-- Representation of one test that needs to be executed (`struct Test`). -/
structure Test where
  name : String
  body : TestBody
  output : Output
  should_panic : Option (Option String)
deriving DecidableEq, Repr

/-- The `enum TestResult` of test outcomes. -/
inductive TestResult where
  | Ok : TestResult
  | Err (e : JsValue) : TestResult
  | Ignored (reason : Option String) : TestResult
deriving DecidableEq, Repr

/-- The `From<Result<(), JsValue>> for TestResult` conversion. -/
def TestResult.ofResult : Except JsValue Unit → TestResult
  | .ok () => .Ok
  | .error e => .Err e

/-- Failure reasons (`enum Failure`). -/
inductive Failure where
  | Error (e : JsValue) : Failure
  | ShouldPanic : Failure
  | ShouldPanicExpected : Failure
deriving DecidableEq, Repr

/-- One call made on the `Formatter` trait object: the formatter is an
external collaborator, modelled as the trace of calls made to it. -/
inductive LogEvent where
  | writeln (line : String) : LogEvent
  | logTest (name : String) (result : TestResult) : LogEvent
deriving DecidableEq, Repr

/-- Scheduler state (`struct State`). The `formatter` trait object is
modelled by the `log` event trace; the timer by an optional pre-rendered
elapsed-time string. -/
structure State where
  filter : Option String := none
  include_ignored : Bool := false
  skip : List String := []
  succeeded : Nat := 0
  filtered : Nat := 0
  ignored : Nat := 0
  failures : List (Test × Failure) := []
  remaining : List Test := []
  running : List Test := []
  log : List LogEvent := []
  timer : Option String := none
deriving DecidableEq, Repr

/-- Append one formatter call to the trace. -/
def State.emit (s : State) (e : LogEvent) : State :=
  { s with log := s.log ++ [e] }

/-- Retirement, `State::log_test_result`: classify a finished test's result under the
should-panic policy, updating the success counter / failure list and logging
through the formatter. -/
def State.log_test_result (s : State) (test : Test) (result : TestResult) :
    State :=
  match test.should_panic with
  | some should_panic =>
    match result with
    | .Err _e =>
      match should_panic with
      | some expected =>
        if ¬ strContains test.output.panic expected then
          let s := s.emit (.logTest test.name (.Err .null))
          { s with failures := s.failures ++ [(test, .ShouldPanicExpected)] }
        else
          let s := s.emit (.logTest test.name .Ok)
          { s with succeeded := s.succeeded + 1 }
      | none =>
        let s := s.emit (.logTest test.name .Ok)
        { s with succeeded := s.succeeded + 1 }
    | _ =>
      let s := s.emit (.logTest test.name (.Err .null))
      { s with failures := s.failures ++ [(test, .ShouldPanic)] }
  | none =>
    let s := s.emit (.logTest test.name result)
    match result with
    | .Ok => { s with succeeded := s.succeeded + 1 }
    | .Err e => { s with failures := s.failures ++ [(test, .Error e)] }
    | .Ignored _ => s

/-- One `poll` of a test's wrapped future: if the body still has suspension
points left it consumes one and reports pending (`none`); otherwise it
reports ready with the body's result. -/
def pollTest (t : Test) : Test × Option (Except JsValue Unit) :=
  match t.body.pendings with
  | 0 => (t, some t.body.result)
  | n + 1 => ({ t with body := { t.body with pendings := n } }, none)

/-- Rust `Vec::pop`: remove and return the last element. -/
def popLast {α : Type} (l : List α) : Option (List α × α) :=
  match l.getLast? with
  | none => none
  | some x => some (l.dropLast, x)

/-- The first half of `ExecuteTests::poll`: `for i in (0..running.len()).rev()`
poll `running[i]`; on `Ready` remove it from the running list and retire it
through `log_test_result`. The input list here is the *reversed* running
list (index descending); the returned list is the kept (still pending)
tests, also in reversed order. -/
def drainRev (s : State) : List Test → State × List Test
  | [] => (s, [])
  | t :: rest =>
    match pollTest t with
    | (t', none) =>
      let (s', keep) := drainRev s rest
      (s', t' :: keep)
    | (t', some r) =>
      drainRev (s.log_test_result t' (.ofResult r)) rest

/-- The second half of `ExecuteTests::poll`: `while running.len() < CONCURRENCY`
pop a test off `remaining`, poll it once; on `Ready` retire it, on `Pending`
push it onto `running`. Returns the final state, remaining list, and
running list. -/
def admitLoop (s : State) (remaining running : List Test) :
    State × List Test × List Test :=
  if running.length < CONCURRENCY then
    match h : popLast remaining with
    | none => (s, remaining, running)
    | some (rest, t) =>
      match pollTest t with
      | (t', none) => admitLoop s rest (running ++ [t'])
      | (t', some r) => admitLoop (s.log_test_result t' (.ofResult r)) rest running
  else (s, remaining, running)
termination_by remaining.length
decreasing_by all_goals {
  unfold popLast at h
  cases hl : remaining.getLast? with
  | none => rw [hl] at h; exact absurd h (by simp)
  | some x =>
    rw [hl] at h
    have hne : remaining ≠ [] := by
      intro hnil; rw [hnil] at hl; simp at hl
    obtain ⟨rfl, rfl⟩ : remaining.dropLast = rest ∧ x = t := by simpa using h
    rw [List.length_dropLast]
    exact Nat.sub_lt (List.length_pos.mpr hne) Nat.one_pos }

/-- Rust `str::lines`: split on `\n`, dropping a final empty segment and a
trailing `\r` on each line. -/
def rustLines (s : String) : List String :=
  let ls := s.splitOn "\n"
  let ls := if ls.getLast? = some "" then ls.dropLast else ls
  ls.map fun l => if l.endsWith "\r" then l.dropRight 1 else l

/-- Indentation helper `fn tab`: indent every line of `s` by four spaces. -/
def tab (s : String) : String :=
  (rustLines s).foldl (fun result line => result ++ "    " ++ line ++ "\n") ""

/-- The `State::accumulate_console_output` helper. -/
def State.accumulate_console_output (logs : String) (which output : String) :
    String :=
  if output.isEmpty then logs
  else logs ++ which ++ " output:\n" ++ tab output ++ "\n"

/-- Failure rendering, `State::print_failure`: render one failure's detail block.
(When the failure is `ShouldPanicExpected` the source unwraps
`test.should_panic` twice; such records are only ever created with
`should_panic = some (some _)`, and we render the empty string in the
unreachable cases.) -/
def State.print_failure (s : State) (test : Test) (failure : Failure) :
    State :=
  let logs := ""
  let logs :=
    match failure with
    | .ShouldPanic =>
      logs ++ "note: " ++ test.name ++ " did not panic as expected\n\n"
    | .ShouldPanicExpected =>
      let expected := match test.should_panic with
        | some (some e) => e
        | _ => ""
      logs ++ "note: panic did not contain expected string\n" ++
        "      panic message: `\"" ++ test.output.panic ++ "\"`,\n" ++
        " expected substring: `\"" ++ expected ++ "\"`\n\n"
    | .Error _ => logs
  let logs := State.accumulate_console_output logs "debug" test.output.debug
  let logs := State.accumulate_console_output logs "log" test.output.log
  let logs := State.accumulate_console_output logs "info" test.output.info
  let logs := State.accumulate_console_output logs "warn" test.output.warn
  let logs := State.accumulate_console_output logs "error" test.output.error
  let logs :=
    match failure with
    | .Error error =>
      logs ++ "JS exception that was thrown:\n" ++ tab (stringifyJs error)
    | _ => logs
  s.emit (.writeln ("---- " ++ test.name ++ " output ----\n" ++ tab logs))

/-- Report rendering, `State::print_results`: render the final report through the formatter. -/
def State.print_results (s : State) : State :=
  let failures := s.failures
  let s :=
    if failures.length > 0 then
      let s := s.emit (.writeln "\nfailures:\n")
      let s := failures.foldl (fun s p => s.print_failure p.1 p.2) s
      let s := s.emit (.writeln "failures:\n")
      failures.foldl (fun s p => s.emit (.writeln ("    " ++ p.1.name))) s
    else s
  let finished_in :=
    match s.timer with
    | some elapsed => "; finished in " ++ elapsed ++ "s"
    | none => ""
  let s := s.emit (.writeln "")
  s.emit (.writeln
    ("test result: " ++ (if failures.length = 0 then "ok" else "FAILED") ++
      ". " ++ toString s.succeeded ++ " passed; " ++
      toString failures.length ++ " failed; " ++
      toString s.ignored ++ " ignored; " ++
      toString s.filtered ++ " filtered out" ++ finished_in ++ "\n"))

/-- Outcome of one resumption of `ExecuteTests::poll`: pending, ready with
the overall verdict, or a failed `assert_eq!` (a fatal abort). -/
inductive PollOut where
  | pending : PollOut
  | ready (passed : Bool) : PollOut
  | panicked : PollOut
deriving DecidableEq, Repr

/-- The scheduler loop body `ExecuteTests::poll`: poll all running tests (retiring finished ones),
admit tests from `remaining` up to `CONCURRENCY`, then either yield
(`pending`), hit the `assert_eq!(remaining.len(), 0)` (`panicked`), or
print the report and resolve with `failures.is_empty()` (`ready`). -/
def executeTestsPoll (s : State) : State × PollOut :=
  let (s1, keepRev) := drainRev s s.running.reverse
  let running1 := keepRev.reverse
  let (s2, remaining2, running2) := admitLoop s1 s.remaining running1
  let s3 := { s2 with remaining := remaining2, running := running2 }
  if running2.length ≠ 0 then (s3, .pending)
  else if remaining2.length ≠ 0 then (s3, .panicked)
  else
    let s4 := s3.print_results
    (s4, .ready (s4.failures.length == 0))

/-- Iterated resumptions of the scheduler loop. -/
def pollIter : Nat → State → State
  | 0, s => s
  | n + 1, s => pollIter n (executeTestsPoll s).1

/-- The tail of `Context::execute`: build the fresh `Output` (with the
should-panic flag), wrap the body, and push the `Test` onto `remaining`. -/
def Context.push (s : State) (name : String) (body : TestBody)
    (should_panic : Option (Option String)) : State :=
  let output : Output := { should_panic := should_panic.isSome }
  { s with remaining := s.remaining ++
      [{ name := name, body := body, output := output,
         should_panic := should_panic }] }

/-- The part of `Context::execute` after the primary filter check: the skip
loop, the ignore check, and the final push onto `remaining`. -/
def Context.executeAfterFilter (s : State) (name : String) (body : TestBody)
    (should_panic ignore : Option (Option String)) : Option State :=
  if s.skip.any (fun skip => strContains name skip) then
    some { s with filtered := s.filtered + 1 }
  else if ¬ s.include_ignored then
    match ignore with
    | some ignore =>
      let s := s.emit (.logTest name (.Ignored ignore))
      some { s with ignored := s.ignored + 1 }
    | none => some (Context.push s name body should_panic)
  else some (Context.push s name body should_panic)

/-- Registration, `Context::execute`: registration with filter/skip/ignore policy. Returns
`none` when registration panics (the `split_once("::").unwrap()` on a name
with no `::`). The body, should-panic and ignore annotations are the data
the `execute_sync`/`execute_async` entry points pass along. -/
def Context.execute (s : State) (name : String) (body : TestBody)
    (should_panic ignore : Option (Option String)) : Option State :=
  match splitOnce name "::" with
  | none => none
  | some (_, name) =>
    match s.filter with
    | some filter =>
      if ¬ strContains name filter then
        some { s with filtered := s.filtered + 1 }
      else Context.executeAfterFilter s name body should_panic ignore
    | none => Context.executeAfterFilter s name body should_panic ignore

/-- Which of the five console streams an emission targets (the `dst` closure
passed to `record`). -/
inductive Stream where
  | debug | log | info | warn | error
deriving DecidableEq, Repr

/-- Read one console stream of an `Output`. -/
def Output.getStream (o : Output) : Stream → String
  | .debug => o.debug
  | .log => o.log
  | .info => o.info
  | .warn => o.warn
  | .error => o.error

/-- Replace one console stream of an `Output`. -/
def Output.setStream (o : Output) : Stream → String → Output
  | .debug, v => { o with debug := v }
  | .log, v => { o with log := v }
  | .info, v => { o with info := v }
  | .warn, v => { o with warn := v }
  | .error, v => { o with error := v }

/-- The `args.for_each` loop body of `record`: for each value, push a space
unless it is the first (index 0), then push its stringification. -/
def recordArgs (dst : String) : List JsValue → Nat → String
  | [], _ => dst
  | val :: rest, idx =>
    recordArgs ((if idx ≠ 0 then dst ++ " " else dst) ++ stringifyJs val) rest
      (idx + 1)

/-- Capture, `fn record`: if no test is currently active (the capture cell `none`),
do nothing; otherwise append the space-joined stringified values plus a
trailing newline to the selected stream of the active test's output. The
capture cell (`CURRENT_OUTPUT`) is passed explicitly as `cell`. -/
def record (cell : Option Output) (dst : Stream) (args : List JsValue) :
    Option Output :=
  match cell with
  | none => cell
  | some out =>
    some (out.setStream dst ((recordArgs (out.getStream dst) args 0).push '\n'))

/-- Entry point `__wbgtest_console_log`. -/
def __wbgtest_console_log (cell : Option Output) (args : List JsValue) :
    Option Output :=
  record cell .log args

/-- Entry point `__wbgtest_console_debug`. -/
def __wbgtest_console_debug (cell : Option Output) (args : List JsValue) :
    Option Output :=
  record cell .debug args

/-- Entry point `__wbgtest_console_info`. -/
def __wbgtest_console_info (cell : Option Output) (args : List JsValue) :
    Option Output :=
  record cell .info args

/-- Entry point `__wbgtest_console_warn`. -/
def __wbgtest_console_warn (cell : Option Output) (args : List JsValue) :
    Option Output :=
  record cell .warn args

/-- Entry point `__wbgtest_console_error`. -/
def __wbgtest_console_error (cell : Option Output) (args : List JsValue) :
    Option Output :=
  record cell .error args

/-- Modelled from the spec: "stringifies and appends to that test's
corresponding stream with space-separated values and a trailing newline" —
the space-separated join of a list of strings, written independently of the
`record` implementation for comparison with it. -/
def spaceSeparated : List String → String
  | [] => ""
  | [x] => x
  | x :: y :: rest => x ++ " " ++ spaceSeparated (y :: rest)

theorem listContains_iff (haystack needle : List Char) :
    listContains haystack needle = true ↔ needle <:+: haystack := by
  induction haystack with
  | nil =>
    simp [listContains, List.isEmpty_iff, List.infix_nil]
  | cons c rest ih =>
    simp only [listContains, Bool.or_eq_true, List.isPrefixOf_iff_prefix, ih,
      List.infix_cons_iff]

theorem strContains_iff (haystack needle : String) :
    strContains haystack needle = true ↔ needle.toList <:+: haystack.toList :=
  listContains_iff _ _

theorem splitOnceList_none_iff (l pat : List Char) (hpat : pat ≠ []) :
    splitOnceList l pat = none ↔ listContains l pat = false := by
  induction l with
  | nil =>
    simp [splitOnceList, listContains, List.isEmpty_iff, hpat]
  | cons c rest ih =>
    by_cases hpre : pat.isPrefixOf (c :: rest)
    · simp [splitOnceList, listContains, hpre]
    · simp only [splitOnceList, listContains, hpre, if_false, Bool.false_or]
      cases hsplit : splitOnceList rest pat with
      | none => simp [hsplit, ← ih, hsplit]
      | some pp => simp [hsplit, ← ih, hsplit]

theorem splitOnceList_eq_some (l pat pre post : List Char)
    (h : splitOnceList l pat = some (pre, post)) :
    l = pre ++ pat ++ post ∧
      ∀ pre' post', l = pre' ++ pat ++ post' → pre.length ≤ pre'.length := by
  induction l generalizing pre post with
  | nil =>
    simp only [splitOnceList] at h
    by_cases hpat : pat.isEmpty
    · simp only [hpat, if_true, Option.some.injEq, Prod.mk.injEq] at h
      obtain ⟨rfl, rfl⟩ := h
      refine ⟨by simp [List.isEmpty_iff.mp hpat], ?_⟩
      intro pre' post' _
      simp
    · simp [hpat] at h
  | cons c rest ih =>
    simp only [splitOnceList] at h
    by_cases hpre : pat.isPrefixOf (c :: rest)
    · simp only [hpre, if_true, Option.some.injEq, Prod.mk.injEq] at h
      obtain ⟨rfl, rfl⟩ := h
      have hp : pat <+: c :: rest := List.isPrefixOf_iff_prefix.mp hpre
      obtain ⟨t, ht⟩ := hp
      refine ⟨?_, ?_⟩
      · have hlen : (c :: rest).drop pat.length = t := by
          rw [← ht]; simp
        rw [hlen]; simpa using ht.symm
      · intro pre' post' _
        simp
    · simp only [hpre, if_false] at h
      cases hsplit : splitOnceList rest pat with
      | none => rw [hsplit] at h; exact absurd h (by simp)
      | some pp =>
        obtain ⟨pre0, post0⟩ := pp
        rw [hsplit] at h
        simp only [Option.some.injEq, Prod.mk.injEq] at h
        obtain ⟨rfl, rfl⟩ := h
        obtain ⟨hrest, hmin⟩ := ih pre0 post hsplit
        refine ⟨by simp [hrest], ?_⟩
        intro pre' post' heq
        cases pre' with
        | nil =>
          exfalso
          apply hpre
          rw [List.isPrefixOf_iff_prefix]
          exact ⟨post', by simpa using heq.symm⟩
        | cons c' pre'' =>
          have : rest = pre'' ++ pat ++ post' := by
            have h2 : c = c' ∧ rest = pre'' ++ (pat ++ post') := by simpa using heq
            simpa using h2.2
          have := hmin pre'' post' this
          simpa using Nat.succ_le_succ this

theorem popLast_nil {α : Type} : popLast ([] : List α) = none := rfl

theorem popLast_concat {α : Type} (l : List α) (a : α) :
    popLast (l ++ [a]) = some (l, a) := by
  simp [popLast, List.getLast?_concat, List.dropLast_concat]

theorem popLast_eq_some {α : Type} {l rest : List α} {a : α}
    (h : popLast l = some (rest, a)) : l = rest ++ [a] := by
  unfold popLast at h
  cases hl : l.getLast? with
  | none => rw [hl] at h; exact absurd h (by simp)
  | some x =>
    rw [hl] at h
    simp only [Option.some.injEq, Prod.mk.injEq] at h
    obtain ⟨rfl, rfl⟩ := h
    have hne : l ≠ [] := by
      intro hnil; rw [hnil] at hl; simp at hl
    have hx : l.getLast hne = x := by
      rw [List.getLast?_eq_getLast l hne] at hl
      exact Option.some.inj hl
    calc l = l.dropLast ++ [l.getLast hne] := (List.dropLast_concat_getLast hne).symm
    _ = l.dropLast ++ [x] := by rw [hx]

theorem popLast_length {α : Type} {l rest : List α} {a : α}
    (h : popLast l = some (rest, a)) : rest.length < l.length := by
  rw [popLast_eq_some h]
  simp

theorem String.push_newline (s : String) : s.push '\n' = s ++ "\n" := by
  cases s
  rfl

theorem recordArgs_pos (args : List JsValue) (dst : String) (n : Nat)
    (hn : n ≠ 0) :
    recordArgs dst args n =
      dst ++ (if args.isEmpty then "" else
        " " ++ spaceSeparated (args.map stringifyJs)) := by
  induction args generalizing dst n with
  | nil => simp [recordArgs, String.append_empty]
  | cons v rest ih =>
    simp only [recordArgs, hn, if_true, ne_eq, not_false_iff]
    rw [ih _ (n + 1) (Nat.succ_ne_zero n)]
    cases rest with
    | nil => simp [spaceSeparated, String.append_empty, String.append_assoc]
    | cons w rest' =>
      simp [spaceSeparated, String.append_assoc]

theorem recordArgs_zero (args : List JsValue) (dst : String) :
    recordArgs dst args 0 = dst ++ spaceSeparated (args.map stringifyJs) := by
  cases args with
  | nil => simp [recordArgs, spaceSeparated, String.append_empty]
  | cons v rest =>
    have h0 : recordArgs dst (v :: rest) 0 =
        recordArgs (dst ++ stringifyJs v) rest 1 := by
      simp [recordArgs]
    rw [h0, recordArgs_pos rest _ 1 Nat.one_ne_zero]
    cases rest with
    | nil => simp [spaceSeparated, String.append_empty]
    | cons w rest' => simp [spaceSeparated, String.append_assoc]

theorem Output.getStream_setStream_same (o : Output) (dst : Stream)
    (v : String) : (o.setStream dst v).getStream dst = v := by
  cases dst <;> rfl

theorem Output.getStream_setStream_other (o : Output) (dst other : Stream)
    (v : String) (h : other ≠ dst) :
    (o.setStream dst v).getStream other = o.getStream other := by
  cases dst <;> cases other <;> first | rfl | exact absurd rfl h

/-- C9: each of the five diagnostic-emission entry points, with a test active
(capture cell set), appends the stringified values — space-separated, with a
trailing newline — to that test's corresponding stream, leaving the other
streams, the panic stream and the flag unchanged; with no test active the
call is a no-op. -/
theorem console_entry_points_record (out : Output) (args : List JsValue) :
    (__wbgtest_console_debug (some out) args =
        some { out with debug := out.debug ++
          spaceSeparated (args.map stringifyJs) ++ "\n" } ∧
      __wbgtest_console_log (some out) args =
        some { out with log := out.log ++
          spaceSeparated (args.map stringifyJs) ++ "\n" } ∧
      __wbgtest_console_info (some out) args =
        some { out with info := out.info ++
          spaceSeparated (args.map stringifyJs) ++ "\n" } ∧
      __wbgtest_console_warn (some out) args =
        some { out with warn := out.warn ++
          spaceSeparated (args.map stringifyJs) ++ "\n" } ∧
      __wbgtest_console_error (some out) args =
        some { out with error := out.error ++
          spaceSeparated (args.map stringifyJs) ++ "\n" }) ∧
    (__wbgtest_console_debug none args = none ∧
      __wbgtest_console_log none args = none ∧
      __wbgtest_console_info none args = none ∧
      __wbgtest_console_warn none args = none ∧
      __wbgtest_console_error none args = none) := by
  refine ⟨⟨?_, ?_, ?_, ?_, ?_⟩, rfl, rfl, rfl, rfl, rfl⟩ <;>
    simp only [__wbgtest_console_debug, __wbgtest_console_log,
      __wbgtest_console_info, __wbgtest_console_warn,
      __wbgtest_console_error, record, recordArgs_zero,
      String.push_newline, Output.getStream, Output.setStream,
      String.append_assoc]

/-- C1: retirement of a should-panic test. With no expected substring, the
test passes (success counter +1, formatter logs pass) exactly when its body
completed with an error, and an `Ok` body yields a `ShouldPanic` failure
record (expected-panic-but-did-not). With an expected substring `sub`, the
test passes exactly when its body completed with an error and its captured
panic stream contains `sub`; an error without the substring yields a
`ShouldPanicExpected` record (panic-message-mismatch), and an `Ok` body
yields a `ShouldPanic` record. Either failure kind logs a fail line. -/
theorem log_test_result_should_panic (s : State) (t : Test) :
    (t.should_panic = some none →
      (∀ e, s.log_test_result t (.Err e) =
        { s with log := s.log ++ [.logTest t.name .Ok],
                 succeeded := s.succeeded + 1 }) ∧
      s.log_test_result t .Ok =
        { s with log := s.log ++ [.logTest t.name (.Err .null)],
                 failures := s.failures ++ [(t, .ShouldPanic)] }) ∧
    (∀ sub, t.should_panic = some (some sub) →
      (strContains t.output.panic sub = true →
        ∀ e, s.log_test_result t (.Err e) =
          { s with log := s.log ++ [.logTest t.name .Ok],
                   succeeded := s.succeeded + 1 }) ∧
      (strContains t.output.panic sub = false →
        ∀ e, s.log_test_result t (.Err e) =
          { s with log := s.log ++ [.logTest t.name (.Err .null)],
                   failures := s.failures ++ [(t, .ShouldPanicExpected)] }) ∧
      s.log_test_result t .Ok =
        { s with log := s.log ++ [.logTest t.name (.Err .null)],
                 failures := s.failures ++ [(t, .ShouldPanic)] }) := by
  constructor
  · intro h
    constructor
    · intro e; simp [State.log_test_result, State.emit, h]
    · simp [State.log_test_result, State.emit, h]
  · intro sub h
    refine ⟨fun hc e => ?_, fun hc e => ?_, ?_⟩
    · simp [State.log_test_result, State.emit, h, hc]
    · simp [State.log_test_result, State.emit, h, hc]
    · simp [State.log_test_result, State.emit, h]

/-- Witness for C1: a test annotated `should_panic(Some("boom"))` whose body
errored and whose captured panic stream is `"boom happened"` is retired as a
pass (success counter +1, formatter logs `ok`). -/
theorem log_test_result_should_panic_witness :
    strContains "boom happened" "boom" = true ∧
    State.log_test_result {}
        { name := "t", body := { pendings := 0, result := .error .null },
          output := { panic := "boom happened", should_panic := true },
          should_panic := some (some "boom") } (.Err .null) =
      { succeeded := 1, log := [.logTest "t" .Ok] } := by
  refine ⟨by decide, ?_⟩
  have h := ((log_test_result_should_panic {}
      { name := "t", body := { pendings := 0, result := .error .null },
        output := { panic := "boom happened", should_panic := true },
        should_panic := some (some "boom") }).2 "boom" rfl).1 (by decide) .null
  simpa using h

/-- C10: `Context::execute` (hence `execute_sync`/`execute_async`) requires
the test name to contain the module-path separator `::`. Without it,
registration panics (modelled as `none`); with it, registration never
panics, and the normalized name is exactly the portion after the *first*
`::` (witnessed by the name the pushed `Test` carries). -/
theorem execute_name_separator (s : State) (name : String) (body : TestBody)
    (sp ig : Option (Option String)) :
    (strContains name "::" = false →
      Context.execute s name body sp ig = none) ∧
    (∀ pre post, splitOnce name "::" = some (pre, post) →
      Context.execute s name body sp ig ≠ none ∧
      name = pre ++ "::" ++ post ∧
      (∀ pre' post' : String, name = pre' ++ "::" ++ post' →
        pre.length ≤ pre'.length) ∧
      (s.filter = none → s.skip = [] → ig = none →
        Context.execute s name body sp ig =
          some { s with remaining := s.remaining ++
            [{ name := post, body := body,
               output := { should_panic := sp.isSome },
               should_panic := sp }] })) := by
  constructor
  · intro hc
    have hnone : splitOnceList name.toList "::".toList = none := by
      rw [splitOnceList_none_iff _ _ (by decide)]
      exact hc
    have hnone' : splitOnceList name.data ([':', ':']) = none := hnone
    simp [Context.execute, splitOnce, hnone']
  · intro pre post hsome
    unfold splitOnce at hsome
    cases hlist : splitOnceList name.toList "::".toList with
    | none => rw [hlist] at hsome; exact absurd hsome (by simp)
    | some pp =>
      obtain ⟨preL, postL⟩ := pp
      rw [hlist] at hsome
      simp only [Option.some.injEq, Prod.mk.injEq] at hsome
      obtain ⟨hpre, hpost⟩ := hsome
      obtain ⟨heq, hmin⟩ := splitOnceList_eq_some _ _ _ _ hlist
      refine ⟨?_, ?_, ?_, ?_⟩
      · simp only [Context.execute, splitOnce, hlist]
        cases hf : s.filter with
        | none =>
          simp only [Context.executeAfterFilter]
          by_cases hskip : s.skip.any (fun skip => strContains ⟨postL⟩ skip)
          · simp [hskip]
          · simp only [hskip, if_false, Bool.false_eq_true]
            by_cases hii : s.include_ignored <;> cases ig <;> simp [hii]
        | some f =>
          by_cases hcf : strContains ⟨postL⟩ f
          · simp only [hcf, not_true, if_false, Bool.true_eq_false,
              Context.executeAfterFilter]
            by_cases hskip : s.skip.any (fun skip => strContains ⟨postL⟩ skip)
            · simp [hskip]
            · simp only [hskip, if_false, Bool.false_eq_true]
              by_cases hii : s.include_ignored <;> cases ig <;> simp [hii]
          · simp [hcf]
      · apply String.ext
        rw [← hpre, ← hpost]
        simpa using heq
      · intro pre' post' hsplit'
        have : name.toList = pre'.toList ++ "::".toList ++ post'.toList := by
          have := congrArg String.data hsplit'
          simpa [String.data_append] using this
        have hlen := hmin pre'.toList post'.toList this
        rw [← hpre]
        exact hlen
      · intro hfilter hskip hig
        subst hig
        have hlist' : splitOnceList name.data ([':', ':']) = some (preL, postL) :=
          hlist
        simp [Context.execute, splitOnce, hlist', hfilter,
          Context.executeAfterFilter, hskip, Context.push, ← hpost]

/-- Witness for C10: a name without `::` panics at registration; a name with
several `::` is normalized to everything after the first one. -/
theorem execute_name_separator_witness :
    strContains "nosep" "::" = false ∧
    Context.execute {} "nosep" { pendings := 0, result := .ok () } none none =
      none ∧
    splitOnce "a::b::c" "::" = some ("a", "b::c") ∧
    Context.execute {} "a::b::c" { pendings := 0, result := .ok () } none none =
      some { remaining :=
        [{ name := "b::c", body := { pendings := 0, result := .ok () },
           output := {}, should_panic := none }] } := by
  refine ⟨by decide, ?_, by decide, ?_⟩
  · exact (execute_name_separator {} "nosep"
      { pendings := 0, result := .ok () } none none).1 (by decide)
  · have h := ((execute_name_separator {} "a::b::c"
      { pendings := 0, result := .ok () } none none).2 "a" "b::c"
      (by decide)).2.2.2 rfl rfl rfl
    simpa using h

/-- Counterexample for C4 as stated: with filter `"a"` and skip list
`["b"]`, the test `m::ab` has a normalized name containing the filter yet is
*not* pushed onto the pending queue (the skip check filters it out), so
"scheduled iff the normalized name contains the filter" is false. -/
theorem execute_filter_counterexample :
    strContains "ab" "a" = true ∧
    Context.execute { filter := some "a", skip := ["b"] } "m::ab"
        { pendings := 0, result := .ok () } none none =
      some { filter := some "a", skip := ["b"], filtered := 1 } := by
  constructor
  · decide
  · rfl

/-- C4 (amended): with a configured filter `f`, a test whose normalized name
does not contain `f` bumps the `filtered` counter and is not registered; a
test whose normalized name contains `f` is pushed onto the pending queue
provided additionally no skip substring matches and the test is not dropped
by the ignore policy; with no filter configured the filter step passes every
test (it is pushed under the same skip/ignore provisos). -/
theorem execute_filter (s : State) (name : String) (body : TestBody)
    (sp ig : Option (Option String)) (pre post : String)
    (hsplit : splitOnce name "::" = some (pre, post)) :
    (∀ f, s.filter = some f → strContains post f = false →
      Context.execute s name body sp ig =
        some { s with filtered := s.filtered + 1 }) ∧
    (∀ f, s.filter = some f → strContains post f = true →
      (∀ sk ∈ s.skip, strContains post sk = false) →
      (s.include_ignored = true ∨ ig = none) →
      Context.execute s name body sp ig =
        some { s with remaining := s.remaining ++
          [{ name := post, body := body,
             output := { should_panic := sp.isSome },
             should_panic := sp }] }) ∧
    (s.filter = none →
      (∀ sk ∈ s.skip, strContains post sk = false) →
      (s.include_ignored = true ∨ ig = none) →
      Context.execute s name body sp ig =
        some { s with remaining := s.remaining ++
          [{ name := post, body := body,
             output := { should_panic := sp.isSome },
             should_panic := sp }] }) := by
  have hskip_any : ∀ h : ∀ sk ∈ s.skip, strContains post sk = false,
      (s.skip.any fun skip => strContains post skip) = false := by
    intro h
    simp only [List.any_eq_false]
    intro sk hsk
    simp [h sk hsk]
  refine ⟨fun f hf hc => ?_, fun f hf hc hsk hig => ?_, fun hf hsk hig => ?_⟩
  · simp [Context.execute, hsplit, hf, hc]
  · have hafter : Context.executeAfterFilter s post body sp ig =
        some { s with remaining := s.remaining ++
          [{ name := post, body := body,
             output := { should_panic := sp.isSome },
             should_panic := sp }] } := by
      rcases hig with hig | hig
      · simp [Context.executeAfterFilter, hskip_any hsk, hig, Context.push]
      · subst hig
        by_cases hii : s.include_ignored <;>
          simp [Context.executeAfterFilter, hskip_any hsk, hii, Context.push]
    simp [Context.execute, hsplit, hf, hc, hafter]
  · have hafter : Context.executeAfterFilter s post body sp ig =
        some { s with remaining := s.remaining ++
          [{ name := post, body := body,
             output := { should_panic := sp.isSome },
             should_panic := sp }] } := by
      rcases hig with hig | hig
      · simp [Context.executeAfterFilter, hskip_any hsk, hig, Context.push]
      · subst hig
        by_cases hii : s.include_ignored <;>
          simp [Context.executeAfterFilter, hskip_any hsk, hii, Context.push]
    simp [Context.execute, hsplit, hf, hafter]

/-- Witness for C4 (amended): filter `"qux"` rejects `foo::bar_baz`
(`filtered` += 1, nothing registered); filter `"bar"` accepts it and it is
pushed onto the pending queue. -/
theorem execute_filter_witness :
    splitOnce "foo::bar_baz" "::" = some ("foo", "bar_baz") ∧
    Context.execute { filter := some "qux" } "foo::bar_baz"
        { pendings := 0, result := .ok () } none none =
      some { filter := some "qux", filtered := 1 } ∧
    Context.execute { filter := some "bar" } "foo::bar_baz"
        { pendings := 0, result := .ok () } none none =
      some { filter := some "bar",
             remaining :=
               [{ name := "bar_baz",
                  body := { pendings := 0, result := .ok () },
                  output := {}, should_panic := none }] } := by
  refine ⟨by decide, ?_, ?_⟩
  · have h := (execute_filter { filter := some "qux" } "foo::bar_baz"
      { pendings := 0, result := .ok () } none none "foo" "bar_baz"
      (by decide)).1 "qux" rfl (by decide)
    simpa using h
  · have h := (execute_filter { filter := some "bar" } "foo::bar_baz"
      { pendings := 0, result := .ok () } none none "foo" "bar_baz"
      (by decide)).2.1 "bar" rfl (by decide) (by simp) (Or.inr rfl)
    simpa using h

/-- C5: a registration that passes the primary filter (either no filter is
configured or the normalized name contains it) but whose normalized name
contains some skip substring bumps the same `filtered` counter and does not
register the test, whatever the primary filter was. -/
theorem execute_skip (s : State) (name : String) (body : TestBody)
    (sp ig : Option (Option String)) (pre post : String)
    (hsplit : splitOnce name "::" = some (pre, post))
    (hfilter : s.filter = none ∨
      ∃ f, s.filter = some f ∧ strContains post f = true)
    (hskip : ∃ sk ∈ s.skip, strContains post sk = true) :
    Context.execute s name body sp ig =
      some { s with filtered := s.filtered + 1 } := by
  have hany : (s.skip.any fun skip => strContains post skip) = true := by
    rw [List.any_eq_true]
    obtain ⟨sk, hsk, hc⟩ := hskip
    exact ⟨sk, hsk, hc⟩
  have hafter : Context.executeAfterFilter s post body sp ig =
      some { s with filtered := s.filtered + 1 } := by
    simp [Context.executeAfterFilter, hany]
  rcases hfilter with hf | ⟨f, hf, hc⟩
  · simp [Context.execute, hsplit, hf, hafter]
  · simp [Context.execute, hsplit, hf, hc, hafter]

/-- Witness for C5: skip substring `"bar"` filters out `foo::bar_baz` even
though the primary filter `"baz"` matches it. -/
theorem execute_skip_witness :
    strContains "bar_baz" "baz" = true ∧ strContains "bar_baz" "bar" = true ∧
    Context.execute { filter := some "baz", skip := ["bar"] } "foo::bar_baz"
        { pendings := 0, result := .ok () } none none =
      some { filter := some "baz", skip := ["bar"], filtered := 1 } := by
  refine ⟨by decide, by decide, ?_⟩
  have h := execute_skip { filter := some "baz", skip := ["bar"] }
    "foo::bar_baz" { pendings := 0, result := .ok () } none none "foo"
    "bar_baz" (by decide) (Or.inr ⟨"baz", rfl, by decide⟩)
    ⟨"bar", by simp, by decide⟩
  simpa using h

/-- C6: a registration that passes the filter and skip checks and carries an
ignore annotation is, when `include_ignored` is false, immediately logged as
ignored (with its optional reason), counted in `ignored`, and not pushed;
when `include_ignored` is true the annotation has no effect and the test is
registered normally. -/
theorem execute_ignore (s : State) (name : String) (body : TestBody)
    (sp : Option (Option String)) (pre post : String)
    (hsplit : splitOnce name "::" = some (pre, post))
    (hfilter : s.filter = none ∨
      ∃ f, s.filter = some f ∧ strContains post f = true)
    (hskip : ∀ sk ∈ s.skip, strContains post sk = false) :
    (s.include_ignored = false → ∀ reason,
      Context.execute s name body sp (some reason) =
        some { s with ignored := s.ignored + 1,
                      log := s.log ++ [.logTest post (.Ignored reason)] }) ∧
    (s.include_ignored = true → ∀ ig,
      Context.execute s name body sp ig =
        some { s with remaining := s.remaining ++
          [{ name := post, body := body,
             output := { should_panic := sp.isSome },
             should_panic := sp }] }) := by
  have hany : (s.skip.any fun skip => strContains post skip) = false := by
    simp only [List.any_eq_false]
    intro sk hsk
    simp [hskip sk hsk]
  constructor
  · intro hii reason
    have hafter : Context.executeAfterFilter s post body sp (some reason) =
        some { s with ignored := s.ignored + 1,
                      log := s.log ++ [.logTest post (.Ignored reason)] } := by
      simp [Context.executeAfterFilter, hany, hii, State.emit]
    rcases hfilter with hf | ⟨f, hf, hc⟩
    · simp [Context.execute, hsplit, hf, hafter]
    · simp [Context.execute, hsplit, hf, hc, hafter]
  · intro hii ig
    have hafter : Context.executeAfterFilter s post body sp ig =
        some { s with remaining := s.remaining ++
          [{ name := post, body := body,
             output := { should_panic := sp.isSome },
             should_panic := sp }] } := by
      simp [Context.executeAfterFilter, hany, hii, Context.push]
    rcases hfilter with hf | ⟨f, hf, hc⟩
    · simp [Context.execute, hsplit, hf, hafter]
    · simp [Context.execute, hsplit, hf, hc, hafter]

/-- Witness for C6: with `include_ignored` false, an ignored test (reason
`"slow"`) is logged as ignored and counted; with `include_ignored` true the
same test is pushed onto the pending queue. -/
theorem execute_ignore_witness :
    Context.execute {} "m::t" { pendings := 0, result := .ok () } none
        (some (some "slow")) =
      some { ignored := 1, log := [.logTest "t" (.Ignored (some "slow"))] } ∧
    Context.execute { include_ignored := true } "m::t"
        { pendings := 0, result := .ok () } none (some (some "slow")) =
      some { include_ignored := true,
             remaining :=
               [{ name := "t", body := { pendings := 0, result := .ok () },
                  output := {}, should_panic := none }] } := by
  constructor
  · have h := (execute_ignore {} "m::t" { pendings := 0, result := .ok () }
      none "m" "t" (by decide) (Or.inl rfl) (by simp)).1 rfl (some "slow")
    simpa using h
  · have h := (execute_ignore { include_ignored := true } "m::t"
      { pendings := 0, result := .ok () } none "m" "t" (by decide)
      (Or.inl rfl) (by simp)).2 rfl (some (some "slow"))
    simpa using h

theorem State.emit_failures (s : State) (e : LogEvent) :
    (s.emit e).failures = s.failures := rfl

theorem State.emit_remaining (s : State) (e : LogEvent) :
    (s.emit e).remaining = s.remaining := rfl

theorem State.emit_running (s : State) (e : LogEvent) :
    (s.emit e).running = s.running := rfl

theorem admitLoop_at_cap (s : State) (rem run : List Test)
    (h : CONCURRENCY ≤ run.length) : admitLoop s rem run = (s, rem, run) := by
  unfold admitLoop
  simp [Nat.not_lt.mpr h]

theorem admitLoop_stop (s : State) (rem run : List Test)
    (hlt : run.length < CONCURRENCY) (hpop : popLast rem = none) :
    admitLoop s rem run = (s, rem, run) := by
  unfold admitLoop
  simp only [hlt, if_true]
  split
  · rfl
  · next r0 t0 heq => rw [hpop] at heq; exact absurd heq (by simp)

theorem admitLoop_step_pending (s : State) (rem run rest : List Test)
    (t t' : Test) (hlt : run.length < CONCURRENCY)
    (hpop : popLast rem = some (rest, t)) (hpoll : pollTest t = (t', none)) :
    admitLoop s rem run = admitLoop s rest (run ++ [t']) := by
  conv_lhs => unfold admitLoop
  simp only [hlt, if_true]
  split
  · next heq => rw [hpop] at heq; exact absurd heq (by simp)
  · next r0 t0 heq =>
    rw [hpop] at heq
    obtain ⟨h1, h2⟩ : rest = r0 ∧ t = t0 := by simpa using heq
    subst h1
    subst h2
    simp [hpoll]

theorem admitLoop_step_ready (s : State) (rem run rest : List Test)
    (t t' : Test) (r : Except JsValue Unit) (hlt : run.length < CONCURRENCY)
    (hpop : popLast rem = some (rest, t))
    (hpoll : pollTest t = (t', some r)) :
    admitLoop s rem run =
      admitLoop (s.log_test_result t' (.ofResult r)) rest run := by
  conv_lhs => unfold admitLoop
  simp only [hlt, if_true]
  split
  · next heq => rw [hpop] at heq; exact absurd heq (by simp)
  · next r0 t0 heq =>
    rw [hpop] at heq
    obtain ⟨h1, h2⟩ : rest = r0 ∧ t = t0 := by simpa using heq
    subst h1
    subst h2
    simp [hpoll]

theorem admitLoop_running_empty (s : State) (rem run : List Test) :
    (admitLoop s rem run).2.2 = [] → (admitLoop s rem run).2.1 = [] := by
  induction s, rem, run using admitLoop.induct with
  | case1 s rem run hlt hpop =>
    rw [admitLoop_stop s rem run hlt hpop]
    intro _
    cases rem with
    | nil => rfl
    | cons x xs =>
      exfalso
      unfold popLast at hpop
      cases hl : (x :: xs).getLast? with
      | none => simp at hl
      | some y => rw [hl] at hpop; simp at hpop
  | case2 s rem run hlt rest t hpop t' hpoll ih =>
    rw [admitLoop_step_pending s rem run rest t t' hlt hpop hpoll]
    exact ih
  | case3 s rem run hlt rest t hpop t' r hpoll ih =>
    rw [admitLoop_step_ready s rem run rest t t' r hlt hpop hpoll]
    exact ih
  | case4 s rem run hge =>
    rw [admitLoop_at_cap s rem run (Nat.not_lt.mp hge)]
    intro hrun
    simp only at hrun
    exfalso
    rw [hrun] at hge
    simp [CONCURRENCY] at hge

theorem admitLoop_length_le (s : State) (rem run : List Test) :
    run.length ≤ CONCURRENCY →
      (admitLoop s rem run).2.2.length ≤ CONCURRENCY := by
  induction s, rem, run using admitLoop.induct with
  | case1 s rem run hlt hpop =>
    intro h
    rw [admitLoop_stop s rem run hlt hpop]
    exact h
  | case2 s rem run hlt rest t hpop t' hpoll ih =>
    intro h
    rw [admitLoop_step_pending s rem run rest t t' hlt hpop hpoll]
    exact ih (by simpa using Nat.succ_le_of_lt hlt)
  | case3 s rem run hlt rest t hpop t' r hpoll ih =>
    intro h
    rw [admitLoop_step_ready s rem run rest t t' r hlt hpop hpoll]
    exact ih h
  | case4 s rem run hge =>
    intro h
    rw [admitLoop_at_cap s rem run (Nat.not_lt.mp hge)]
    exact h

theorem drainRev_length_le (s : State) (l : List Test) :
    (drainRev s l).2.length ≤ l.length := by
  induction l generalizing s with
  | nil => simp [drainRev]
  | cons t rest ih =>
    unfold drainRev
    cases hpoll : pollTest t with
    | mk t' res =>
      cases res with
      | none =>
        simp only
        cases hd : drainRev s rest with
        | mk s' keep =>
          have := ih s
          rw [hd] at this
          simpa using Nat.succ_le_succ this
      | some r =>
        simp only
        exact Nat.le_succ_of_le (ih _)

theorem print_failure_fields (s : State) (t : Test) (f : Failure) :
    (s.print_failure t f).failures = s.failures ∧
      (s.print_failure t f).remaining = s.remaining ∧
      (s.print_failure t f).running = s.running := by
  simp [State.print_failure, State.emit]

theorem print_results_fields (s : State) :
    s.print_results.failures = s.failures ∧
      s.print_results.remaining = s.remaining ∧
      s.print_results.running = s.running := by
  have hfold1 : ∀ (L : List (Test × Failure)) (s : State),
      ((L.foldl (fun s p => s.print_failure p.1 p.2) s).failures = s.failures ∧
        (L.foldl (fun s p => s.print_failure p.1 p.2) s).remaining = s.remaining ∧
        (L.foldl (fun s p => s.print_failure p.1 p.2) s).running = s.running) := by
    intro L
    induction L with
    | nil => intro s; simp
    | cons p rest ih =>
      intro s
      obtain ⟨h1, h2, h3⟩ := ih (s.print_failure p.1 p.2)
      obtain ⟨g1, g2, g3⟩ := print_failure_fields s p.1 p.2
      simp only [List.foldl_cons]
      exact ⟨h1.trans g1, h2.trans g2, h3.trans g3⟩
  have hfold2 : ∀ (L : List (Test × Failure)) (s : State),
      ((L.foldl (fun s p => s.emit (.writeln ("    " ++ p.1.name))) s).failures
          = s.failures ∧
        (L.foldl (fun s p => s.emit (.writeln ("    " ++ p.1.name))) s).remaining
          = s.remaining ∧
        (L.foldl (fun s p => s.emit (.writeln ("    " ++ p.1.name))) s).running
          = s.running) := by
    intro L
    induction L with
    | nil => intro s; simp
    | cons p rest ih =>
      intro s
      obtain ⟨h1, h2, h3⟩ := ih (s.emit (.writeln ("    " ++ p.1.name)))
      simp only [List.foldl_cons]
      exact ⟨h1, h2, h3⟩
  have a1 := fun L s => (hfold1 L s).1
  have a2 := fun L s => (hfold1 L s).2.1
  have a3 := fun L s => (hfold1 L s).2.2
  have b1 := fun L s => (hfold2 L s).1
  have b2 := fun L s => (hfold2 L s).2.1
  have b3 := fun L s => (hfold2 L s).2.2
  unfold State.print_results
  by_cases hlen : s.failures.length > 0
  · simp only [hlen, if_true]
    refine ⟨?_, ?_, ?_⟩ <;>
      simp only [State.emit_failures, State.emit_remaining,
        State.emit_running, a1, a2, a3, b1, b2, b3]
  · simp [hlen, State.emit]

/-- C8: the `assert_eq!(remaining.len(), 0)` at the `Done` transition never
fires: one resumption of the scheduler loop never aborts, and whenever the
in-flight set is empty after polling and admission, the pending queue is
empty too (because the admission loop only stops with capacity to spare when
the pending queue is exhausted). -/
theorem scheduler_no_abort (s : State) :
    (executeTestsPoll s).2 ≠ .panicked ∧
      ((executeTestsPoll s).1.running = [] →
        (executeTestsPoll s).1.remaining = []) := by
  unfold executeTestsPoll
  rcases hd : drainRev s s.running.reverse with ⟨s1, keepRev⟩
  rcases ha : admitLoop s1 s.remaining keepRev.reverse with ⟨s2, rem2, run2⟩
  have hrem_of_run : run2 = [] → rem2 = [] := by
    intro h
    have hmain := admitLoop_running_empty s1 s.remaining keepRev.reverse
    rw [ha] at hmain
    simpa using hmain (by simpa using h)
  simp only [hd, ha]
  by_cases hrun : run2.length ≠ 0
  · rw [if_pos hrun]
    refine ⟨by simp, ?_⟩
    intro h
    have : run2 = [] := h
    exact absurd (by simp [this]) hrun
  · have hrun2 : run2 = [] := List.length_eq_zero.mp (by simpa using hrun)
    have hrem2 : rem2 = [] := hrem_of_run hrun2
    subst hrun2
    subst hrem2
    rw [if_neg (by simp), if_neg (by simp)]
    refine ⟨by simp, ?_⟩
    intro _
    exact (print_results_fields _).2.1.trans rfl

/-- C2: one resumption of the scheduler loop yields "not yet complete"
(`pending`) exactly when the in-flight set is non-empty afterwards; it
resolves (`ready`) exactly when both the in-flight set and the pending queue
are empty afterwards; and the resolved boolean is true exactly when the
failure list is empty. -/
theorem scheduler_completion (s : State) :
    ((executeTestsPoll s).2 = .pending ↔ (executeTestsPoll s).1.running ≠ []) ∧
    ((executeTestsPoll s).1.running = [] ∧ (executeTestsPoll s).1.remaining = []
      ↔ ∃ b, (executeTestsPoll s).2 = .ready b) ∧
    (∀ b, (executeTestsPoll s).2 = .ready b →
      (b = true ↔ (executeTestsPoll s).1.failures = [])) := by
  unfold executeTestsPoll
  rcases hd : drainRev s s.running.reverse with ⟨s1, keepRev⟩
  rcases ha : admitLoop s1 s.remaining keepRev.reverse with ⟨s2, rem2, run2⟩
  have hrem_of_run : run2 = [] → rem2 = [] := by
    intro h
    have hmain := admitLoop_running_empty s1 s.remaining keepRev.reverse
    rw [ha] at hmain
    simpa using hmain (by simpa using h)
  simp only [hd, ha]
  by_cases hrun : run2.length ≠ 0
  · rw [if_pos hrun]
    have hne : run2 ≠ [] := by
      intro h; exact hrun (by simp [h])
    refine ⟨?_, ?_, by simp⟩
    · exact ⟨fun _ => hne, fun _ => rfl⟩
    · constructor
      · rintro ⟨h1, -⟩
        exact absurd h1 hne
      · rintro ⟨b, hb⟩
        exact absurd hb (by simp)
  · have hrun2 : run2 = [] := List.length_eq_zero.mp (by simpa using hrun)
    have hrem2 : rem2 = [] := hrem_of_run hrun2
    subst hrun2
    subst hrem2
    rw [if_neg (by simp), if_neg (by simp)]
    have hpres := print_results_fields
      ({ s2 with remaining := ([] : List Test), running := ([] : List Test) })
    refine ⟨?_, ?_, ?_⟩
    · constructor
      · intro h
        exact absurd h (by simp)
      · intro hne
        exact absurd (hpres.2.2.trans rfl) hne
    · constructor
      · intro _
        exact ⟨_, rfl⟩
      · intro _
        refine ⟨?_, ?_⟩
        · rw [hpres.2.2]
        · rw [hpres.2.1]
    · intro b hb
      simp only [PollOut.ready.injEq] at hb
      rw [← hb]
      simp [List.length_eq_zero]

/-- C3: the concurrency cap is the constant 1; the admission loop admits
nothing once the in-flight list has reached the cap; and across any number
of resumptions of the scheduler loop the in-flight list never exceeds the
cap (it starts empty in a real run). -/
theorem concurrency_cap (s : State) (n : Nat) :
    CONCURRENCY = 1 ∧
    (∀ s' rem run, CONCURRENCY ≤ List.length run →
      admitLoop s' rem run = (s', rem, run)) ∧
    (s.running.length ≤ CONCURRENCY →
      (pollIter n s).running.length ≤ CONCURRENCY) := by
  refine ⟨rfl, fun s' rem run h => admitLoop_at_cap s' rem run h, ?_⟩
  have hstep : ∀ s : State, s.running.length ≤ CONCURRENCY →
      (executeTestsPoll s).1.running.length ≤ CONCURRENCY := by
    intro s h
    unfold executeTestsPoll
    rcases hd : drainRev s s.running.reverse with ⟨s1, keepRev⟩
    rcases ha : admitLoop s1 s.remaining keepRev.reverse with ⟨s2, rem2, run2⟩
    have hkeep : keepRev.length ≤ s.running.length := by
      have hlen := drainRev_length_le s s.running.reverse
      rw [hd] at hlen
      simpa using hlen
    have hrun2 : run2.length ≤ CONCURRENCY := by
      have hle := admitLoop_length_le s1 s.remaining keepRev.reverse
        (by simpa using hkeep.trans h)
      rw [ha] at hle
      simpa using hle
    simp only [hd, ha]
    by_cases hr : run2.length ≠ 0
    · rw [if_pos hr]
      exact hrun2
    · have hrun0 : run2 = [] := List.length_eq_zero.mp (by simpa using hr)
      subst hrun0
      rw [if_neg (by simp)]
      by_cases hm : rem2.length ≠ 0
      · rw [if_pos hm]
        simp [CONCURRENCY]
      · rw [if_neg hm]
        have hp := (print_results_fields
          ({ s2 with remaining := rem2, running := ([] : List Test) })).2.2
        simp [hp, CONCURRENCY]
  induction n generalizing s with
  | zero => intro h; simpa [pollIter] using h
  | succ n ih =>
    intro h
    exact ih _ (hstep s h)

/-- C7: admission from the pending queue is LIFO. One admission pops the
most-recently-registered entry, polls it once, and either retires it (when
immediately ready) or moves it into the in-flight list; with the cap of 1 a
pending admission fills the in-flight list and admission stops; and a batch
of immediately-ready tests is retired in exactly reverse registration
order. -/
theorem admission_lifo (s : State) :
    (∀ rem run (t t' : Test), run.length < CONCURRENCY →
      pollTest t = (t', none) →
      admitLoop s (rem ++ [t]) run = admitLoop s rem (run ++ [t'])) ∧
    (∀ rem run (t t' : Test) r, run.length < CONCURRENCY →
      pollTest t = (t', some r) →
      admitLoop s (rem ++ [t]) run =
        admitLoop (s.log_test_result t' (.ofResult r)) rem run) ∧
    (∀ ts : List Test, (∀ t ∈ ts, t.body.pendings = 0) →
      admitLoop s ts [] =
        (ts.reverse.foldl
          (fun acc t => acc.log_test_result t (.ofResult t.body.result)) s,
         [], [])) ∧
    (∀ (ts : List Test) (t : Test), t.body.pendings ≠ 0 →
      admitLoop s (ts ++ [t]) [] = (s, ts, [(pollTest t).1])) := by
  refine ⟨?_, ?_, ?_, ?_⟩
  · intro rem run t t' hlt hpoll
    exact admitLoop_step_pending s (rem ++ [t]) run rem t t' hlt
      (popLast_concat rem t) hpoll
  · intro rem run t t' r hlt hpoll
    exact admitLoop_step_ready s (rem ++ [t]) run rem t t' r hlt
      (popLast_concat rem t) hpoll
  · intro ts
    induction ts using List.reverseRecOn generalizing s with
    | nil =>
      intro _
      rw [admitLoop_stop s [] [] (by decide) popLast_nil]
      simp
    | append_singleton ts t ih =>
      intro hall
      have ht : t.body.pendings = 0 := hall t (by simp)
      have hpoll : pollTest t = (t, some t.body.result) := by
        simp [pollTest, ht]
      rw [admitLoop_step_ready s (ts ++ [t]) [] ts t t t.body.result
        (by decide) (popLast_concat ts t) hpoll]
      rw [ih _ (fun u hu => hall u (by simp [hu]))]
      simp [List.reverse_concat]
  · intro ts t ht
    obtain ⟨n, hn⟩ := Nat.exists_eq_succ_of_ne_zero ht
    have hpoll : pollTest t =
        ({ t with body := { t.body with pendings := n } }, none) := by
      simp [pollTest, hn]
    rw [admitLoop_step_pending s (ts ++ [t]) [] ts t _ (by decide)
      (popLast_concat ts t) hpoll]
    rw [show ([] : List Test) ++
      [{ t with body := { t.body with pendings := n } }] =
        [{ t with body := { t.body with pendings := n } }] from rfl]
    rw [admitLoop_at_cap s ts _ (by simp [CONCURRENCY])]
    simp [hpoll]

theorem executeTestsPoll_empty :
    executeTestsPoll ({} : State) =
      ({ log := [.writeln "",
          .writeln
            "test result: ok. 0 passed; 0 failed; 0 ignored; 0 filtered out\n"] },
        .ready true) := by
  unfold executeTestsPoll
  rw [show drainRev ({} : State) (({} : State).running.reverse) = ({}, [])
    from rfl]
  simp only [List.reverse_nil]
  rw [admitLoop_stop ({} : State) [] [] (by decide) rfl]
  rfl

/-- Witness for C8: on the empty run the scheduler resolves rather than
aborting, and both queues are empty. -/
theorem scheduler_no_abort_witness :
    (executeTestsPoll ({} : State)).2 ≠ .panicked ∧
    (executeTestsPoll ({} : State)).1.remaining = [] := by
  refine ⟨(scheduler_no_abort {}).1, (scheduler_no_abort {}).2 ?_⟩
  rw [executeTestsPoll_empty]

/-- Witness for C2: the empty run resolves immediately with verdict `true`
and an empty failure list. -/
theorem scheduler_completion_witness :
    (executeTestsPoll ({} : State)).2 = .ready true ∧
    (executeTestsPoll ({} : State)).1.failures = [] := by
  refine ⟨by rw [executeTestsPoll_empty], ?_⟩
  have h := (scheduler_completion ({} : State)).2.2 true
    (by rw [executeTestsPoll_empty])
  exact h.mp rfl

/-- Witness for C3: two resumptions from an empty in-flight list keep the
in-flight list within the cap. -/
theorem concurrency_cap_witness :
    CONCURRENCY = 1 ∧
    (pollIter 2 ({} : State)).running.length ≤ CONCURRENCY := by
  exact ⟨(concurrency_cap {} 2).1, (concurrency_cap {} 2).2.2 (by decide)⟩

/-- Witness for C7: two immediately-ready tests registered as `a` then `b`
are retired in the order `b`, `a` (last registered first). -/
theorem admission_lifo_witness :
    admitLoop {}
      [{ name := "a", body := { pendings := 0, result := .ok () },
         output := {}, should_panic := none },
       { name := "b", body := { pendings := 0, result := .ok () },
         output := {}, should_panic := none }] [] =
      ({ succeeded := 2, log := [.logTest "b" .Ok, .logTest "a" .Ok] },
        [], []) := by
  have h := (admission_lifo {}).2.2.1
    [{ name := "a", body := { pendings := 0, result := .ok () },
       output := {}, should_panic := none },
     { name := "b", body := { pendings := 0, result := .ok () },
       output := {}, should_panic := none }] (by decide)
  rw [h]
  rfl

end WbgTest
